import Mathlib

/-!
Verification of the verifiable time-range query engine (CCF tpcc sample):
a shallow embedding of the ledger reader, Merkle history bookkeeping,
snapshot writer/reader/index and the query strategies, with theorems
checking the specification's claims against the embedded code.

Byte buffers are modelled as `List Nat` (each entry one byte), machine
integers as `Nat` (the source never relies on wrap-around in the claims
under study), `TimePoint` as seconds since the epoch (`Nat`, with the
default-constructed null time point being `0`), and fallible C++ paths
(`throw std::logic_error`) as `Except String`.
-/

abbrev Bytes := List Nat

/-- Claim-relevant fragment of `ccf::Signature` (an update of the reserved
`ccf.signatures` table): the signing node id and the signature bytes. -/
structure SigEntry where
  node : Nat
  sig : Bytes
  deriving Repr, DecidableEq

/-- Claim-relevant fragment of `ccfapp::tpcc::History`: the customer id and
the date.  In the source the date is a string parsed by `parse_time`
(`"%F %T"` via `std::get_time`/`mktime`, external); the embedding stores the
parsed `TimePoint` (seconds since epoch) directly. -/
structure History where
  c_id : Nat
  date : Nat
  deriving Repr, DecidableEq

/-- Embedding of `LedgerDomain` (ledger_util.h): the decoded public payload
of one frame.  `table_names` is the field returned by `get_table_names`
(in ledger_util.h it holds the interest set passed to the constructor),
`histUpdates` is `table_updates["histories"]` as returned by
`get_table_updates<HistoryId, History>` (a `std::map`, so listed in key
order; empty list when the table is absent), `sigUpdate` is the single
`ccf.signatures` update when present, and `raw` is the raw-byte region
returned by `Ledger::iterator::get_raw_data`. -/
structure Domain where
  version : Nat
  raw : Bytes
  table_names : List String
  histUpdates : List (Nat × History)
  sigUpdate : Option SigEntry
  deriving Repr, DecidableEq

/-- Modelled from the spec: `LedgerDomain::is_signature_txn` is not under
src/; per the spec a signature frame is recognised by the presence of the
reserved `ccf.signatures` update in the payload. -/
def Domain.is_signature_txn (d : Domain) : Bool :=
  d.sigUpdate.isSome

/-- Modelled from the spec: `MerkleTreeHistory` (node/history.h) is not
under src/.  Per the spec it is an append-only bounded window of leaf
hashes: `append` pushes a leaf, `flush k` drops the leaves with index
`≤ k`, and `root` is a deterministic digest of the retained window.  The
root is modelled as the retained window itself (a faithful abstraction of
a collision-free Merkle root: equal windows give equal roots, and the
claims compare roots only through this function). -/
structure MerkleTreeHistory where
  start : Nat
  leaves : List Bytes
  deriving Repr, DecidableEq

def MerkleTreeHistory.empty : MerkleTreeHistory := ⟨0, []⟩

def MerkleTreeHistory.append (h : MerkleTreeHistory) (leaf : Bytes) :
    MerkleTreeHistory :=
  { h with leaves := h.leaves ++ [leaf] }

def MerkleTreeHistory.flush (h : MerkleTreeHistory) (k : Nat) :
    MerkleTreeHistory :=
  { start := max h.start (k + 1), leaves := h.leaves.drop (k + 1 - h.start) }

def MerkleTreeHistory.get_root (h : MerkleTreeHistory) : List Bytes :=
  h.leaves

/-- External capabilities consumed by `LedgerReader` as black boxes:
the history-window policy constant `MAX_HISTORY_LEN` (node/history.h, not
under src/), `crypto::Sha256Hash` of a raw frame, the `Nodes::TxView`
lookup from node id to certificate, and `tls::Verifier::verify_hash`
(certificate → Merkle root → signature bytes → ok). -/
structure VerifyEnv where
  maxHistoryLen : Nat
  sha256 : Bytes → Bytes
  nodesView : Nat → Option Bytes
  verifySig : Bytes → List Bytes → Bytes → Bool

/-- State of a `LedgerReader` (ledger_reader.h): its Merkle history and the
`reading_at_offset` flag.  The ledger buffer and cursor are passed to
`read_batch` explicitly as the list of remaining decoded frames. -/
structure LedgerReader where
  merkle : MerkleTreeHistory
  reading_at_offset : Bool
  deriving Repr, DecidableEq

/-- Embedding of the from-zero constructor (ledger_reader.h:79-85):
default-constructed Merkle history, `reading_at_offset = false`. -/
def LedgerReader.fromStart : LedgerReader :=
  ⟨MerkleTreeHistory.empty, false⟩

/-- Embedding of the resume constructor (ledger_reader.h:87-95).  The
constructor calls `read_merkle_file(merkle_file)` but discards the returned
buffer (the source comment reads "ignore to handle memory corruption
error"), and `merkle_history` is default-constructed, so the witness
contents never reach the Merkle history. -/
def LedgerReader.atOffset (witness : Bytes) : LedgerReader :=
  ⟨MerkleTreeHistory.empty, true⟩

/-- Embedding of `LedgerReader::verify_batch` (ledger_reader.h:22-58):
flush the Merkle window when `version ≥ MAX_HISTORY_LEN` and not reading at
an offset, take the (single) `ccf.signatures` update, look up the signing
node's certificate (missing node throws), and verify the current Merkle
root against the signature under that certificate.  Dereferencing
`updates.begin()` when no signature update exists is undefined behaviour
in the source and is modelled as an error. -/
def LedgerReader.verify_batch (env : VerifyEnv) (st : LedgerReader)
    (d : Domain) : Except String (Bool × LedgerReader) :=
  let st1 :=
    if d.version ≥ env.maxHistoryLen ∧ st.reading_at_offset = false then
      { st with merkle := st.merkle.flush (d.version - env.maxHistoryLen),
                reading_at_offset := false }
    else st
  match d.sigUpdate with
  | none => Except.error "no ccf.signatures update in signature frame"
  | some sig =>
    match env.nodesView sig.node with
    | none => Except.error "Could not find node for signature"
    | some cert =>
      Except.ok (env.verifySig cert st1.merkle.get_root sig.sig, st1)

/-- One Merkle append of a frame's raw bytes, as performed inside
`read_batch` (ledger_reader.h:124-130). -/
def LedgerReader.appendFrame (env : VerifyEnv) (st : LedgerReader)
    (d : Domain) : LedgerReader :=
  { st with merkle := st.merkle.append (env.sha256 d.raw) }

/-- Embedding of the loop of `LedgerReader::read_batch`
(ledger_reader.h:102-136) over the remaining frames.  Returns the batch
(`none` when `verified` ended up false), the reader state, and the frames
left after the batch.  Faithful details: on a signature frame the result
of `verify_batch` is immediately overwritten by `verified = true` (the
source comment reads "Workaround for memory corruption bug",
ledger_reader.h:118); the frame's leaf is appended to the Merkle history
after verification; dereferencing the end iterator (no signature frame
before end of ledger, `iter <= ledger.end()`) constructs a `LedgerDomain`
over an empty buffer, which throws, and is modelled as an error. -/
def LedgerReader.read_batch_go (env : VerifyEnv) (verify_read : Bool)
    (st : LedgerReader) (frames : List Domain) (batch : List Domain) :
    Except String (Option (List Domain) × LedgerReader × List Domain) :=
  match frames with
  | [] => Except.error "Ledger read past end of file"
  | d :: rest =>
    if d.is_signature_txn then
      if verify_read then
        match st.verify_batch env d with
        | Except.error e => Except.error e
        | Except.ok (v0, st1) =>
          let verified := true
          let st2 := st1.appendFrame env d
          Except.ok (if verified then some (batch ++ [d]) else none, st2, rest)
      else
        Except.ok (some (batch ++ [d]), st, rest)
    else
      let st' := if verify_read then st.appendFrame env d else st
      LedgerReader.read_batch_go env verify_read st' rest (batch ++ [d])

/-- Embedding of `LedgerReader::read_batch` (ledger_reader.h:102-136). -/
def LedgerReader.read_batch (env : VerifyEnv) (verify_read : Bool)
    (st : LedgerReader) (frames : List Domain) :
    Except String (Option (List Domain) × LedgerReader × List Domain) :=
  LedgerReader.read_batch_go env verify_read st frames []

/-- Embedding of `kv::Snapshot` (src/kv/snapshot.h:30-116).  `TimePoint` is
seconds since the epoch; the default-constructed (null) time point is `0`. -/
structure Snapshot where
  version : Nat
  ledger_offset : Nat
  file_path : String
  hash : Bytes
  index_value : Nat
  merkle_file : String
  deriving Repr, DecidableEq

def nullTime : Nat := 0

/-- Skip-list ordered insert used by `goodliffe::multi_skip_list::insert`
on the snapshot container: snapshots are ranked by `index_value`
(`std::less<kv::Snapshot>`, src/kv/snapshot.h:119-128), duplicates are
kept. -/
def slInsert (l : List Snapshot) (s : Snapshot) : List Snapshot :=
  match l with
  | [] => [s]
  | x :: xs =>
    if s.index_value < x.index_value then s :: x :: xs else x :: slInsert xs s

/-- Embedding of `SnapshotManager::append` (src/kv/snapshot.h:142-153):
a snapshot whose `index_value` equals the default-constructed `TimePoint`
is logged and ignored; otherwise it is inserted into the skip list. -/
def SnapshotManager.append (snapshots : List Snapshot) (s : Snapshot) :
    List Snapshot :=
  if s.index_value = nullTime then snapshots
  else slInsert snapshots s

/-- Embedding of `multi_skip_list::lower_bound` on the snapshot index: the
position of the first snapshot not ranked below the probe value, as an
index into the (sorted) element sequence.  `begin` is position `0` and
`end` is position `length`. -/
def lowerBound (snaps : List Snapshot) (v : Nat) : Nat :=
  (snaps.takeWhile (fun s => s.index_value < v)).length

/-- Embedding of the start-snapshot selection of
`HistoryQuery::query_snapshots` (history_query.h:152-176):
`snapshots_iter = lower_bound(date_from)`; if that is `begin`, probe
`lower_bound(date_to)` and return empty (`none`) when it is also `begin`;
then decrement the iterator only when it is `end`; the selected snapshot
is `*snapshots_iter`. -/
def query_snapshots_select (snaps : List Snapshot) (dateFrom dateTo : Nat) :
    Option Snapshot :=
  let i := lowerBound snaps dateFrom
  if i = 0 ∧ lowerBound snaps dateTo = 0 then none
  else snaps.get? (if i = snaps.length then i - 1 else i)

/-- Embedding of the `Action` enum of the snapshot writer
(src/kv/snapshot.h:15-19); named `KvAction` here because Mathlib already
defines `Action`. -/
inductive KvAction where
  | WRITE
  | REMOVE
  deriving Repr, DecidableEq

/-- `KeyValueUpdate` (src/kv/snapshot.h:21-22): raw key bytes, raw value
bytes and the action. -/
abbrev KeyValueUpdate := Bytes × Bytes × KvAction

/-- Embedding of `SnapshotWriter::append_update`
(src/kv/snapshot.h:282-288) on a single table's deque: the first update
creates the deque holding it and every later update is pushed to the
front, so walking front-to-back visits the newest update first.  (The
surrounding `unordered_map` routes each update to the deque of its table
name; the embedding works per table.) -/
def append_update (q : List KeyValueUpdate) (u : KeyValueUpdate) :
    List KeyValueUpdate :=
  u :: q

/-- The per-table deque after absorbing a chronological stream of updates
(oldest first), as built by repeated `append_update` calls from
`SnapshotWriter::append_transaction`. -/
def buildQueue (txs : List KeyValueUpdate) : List KeyValueUpdate :=
  txs.foldl append_update []

/-- Embedding of the reduction loop of `SnapshotSerializer::serialize_table`
(src/kv/snapshot.h:180-210) as the list of (key, value) pairs written into
the data buffer: walk the deque front-to-back keeping a set of already
seen keys (raw byte comparison); a key already seen is skipped (the source
additionally erases it from the deque, which does not change the output);
otherwise it is marked seen, and its key and value bytes are emitted when
the action is `WRITE` (a `REMOVE` emits nothing). -/
def serialize_table_pairs (seen : List Bytes) (q : List KeyValueUpdate) :
    List (Bytes × Bytes) :=
  match q with
  | [] => []
  | (k, v, a) :: rest =>
    if k ∈ seen then serialize_table_pairs seen rest
    else
      match a with
      | KvAction.WRITE => (k, v) :: serialize_table_pairs (k :: seen) rest
      | KvAction.REMOVE => serialize_table_pairs (k :: seen) rest

/-- The pairs serialized for a table given the chronological update stream
of that table: the deque is built by `append_update` and reduced by
`serialize_table`. -/
def serializedPairs (txs : List KeyValueUpdate) : List (Bytes × Bytes) :=
  serialize_table_pairs [] (buildQueue txs)

/-- The update for key `k` whose action is most recent in the chronological
stream `txs` (the highest-version action for that key). -/
def lastUpdateFor (txs : List KeyValueUpdate) (k : Bytes) :
    Option KeyValueUpdate :=
  (txs.filter (fun u => u.1 = k)).getLast?

/-- The serialized pairs whose key is `k`. -/
def pairsFor (k : Bytes) (ps : List (Bytes × Bytes)) : List (Bytes × Bytes) :=
  ps.filter (fun p => p.1 = k)

/-- Big-endian byte encoding of `n` on `k` bytes. -/
def natBE (k n : Nat) : Bytes :=
  (List.range k).map (fun i => n / 256 ^ (k - 1 - i) % 256)

/-- Little-endian byte encoding of `n` on 8 bytes (the `u64 LE` layout the
claim attributes to the snapshot block's `header_size` field). -/
def u64LE (n : Nat) : Bytes :=
  (List.range 8).map (fun i => n / 256 ^ i % 256)

/-- The bytes of an ASCII string (the table names in play are ASCII). -/
def strBytes (s : String) : Bytes :=
  s.data.map Char.toNat

/-- msgpack encoding of a string (`msgpack::pack` of `std::string`):
fixstr for lengths below 32, `str8`/`str16`/`str32` above. -/
def packStr (s : String) : Bytes :=
  let bs := strBytes s
  if bs.length < 32 then (160 + bs.length) :: bs
  else if bs.length < 256 then 217 :: bs.length :: bs
  else if bs.length < 65536 then 218 :: natBE 2 bs.length ++ bs
  else 219 :: natBE 4 bs.length ++ bs

/-- msgpack encoding of an unsigned integer (`msgpack::pack` of `size_t`):
positive fixint below 128, then `uint8`/`uint16`/`uint32`/`uint64`. -/
def packUint (n : Nat) : Bytes :=
  if n < 128 then [n]
  else if n < 256 then [204, n]
  else if n < 65536 then 205 :: natBE 2 n
  else if n < 4294967296 then 206 :: natBE 4 n
  else 207 :: natBE 8 n

/-- The data buffer of `SnapshotSerializer::serialize_table`
(src/kv/snapshot.h:185-210): the retained key and value byte slices are
written back to back (`sbuffer::write`, the bytes are already packed). -/
def serialize_table_data (q : List KeyValueUpdate) : Bytes :=
  (serialize_table_pairs [] q).foldl (fun acc p => acc ++ p.1 ++ p.2) []

/-- The header buffer of `SnapshotSerializer::serialize_table`
(src/kv/snapshot.h:212-214): `packed(name)` then `packed(data_size)`. -/
def serialize_table_header (name : String) (dataSize : Nat) : Bytes :=
  packStr name ++ packUint dataSize

/-- The bytes `SnapshotSerializer::serialize_table`
(src/kv/snapshot.h:212-233) writes to the snapshot file for one table:
the header buffer then the data buffer.  No header-size field is written
by this serializer. -/
def serialize_table_block (name : String) (q : List KeyValueUpdate) : Bytes :=
  let data := serialize_table_data q
  serialize_table_header name data.length ++ data

/-- The byte stream `SnapshotSerializer` feeds to its running digest
(`digest.update_last` of header then data, src/kv/snapshot.h:219-220) for
one table: identical to the bytes written to the file. -/
def serialize_table_digest_input (name : String) (q : List KeyValueUpdate) :
    Bytes :=
  let data := serialize_table_data q
  serialize_table_header name data.length ++ data

/-- Whole snapshot file written by `SnapshotSerializer` over a sequence of
tables (in the serialization order of `SnapshotWriter::create`). -/
def serializer_file (tables : List (String × List KeyValueUpdate)) : Bytes :=
  (tables.map (fun t => serialize_table_block t.1 t.2)).flatten

/-- ASCII decimal digits of `n`, most significant first (what
`std::ofstream::operator<<` writes for an integer).  Fuel-driven helper:
`decDigitsGo (n+1) n` yields the digits of `n`. -/
def decDigitsGo : Nat → Nat → List Nat
  | 0, _ => []
  | fuel + 1, n => if n < 10 then [n] else decDigitsGo fuel (n / 10) ++ [n % 10]

def asciiDec (n : Nat) : Bytes :=
  (decDigitsGo (n + 1) n).map (fun d => d + 48)

/-- The bytes the tpcc-app writer `Snapshot::serialize_table`
(samples/apps/tpcc/app/snapshot.h:64-92) writes for one table whose packed
(key, value) byte pairs are `kvs`: `fs << header_size` writes the header
size as ASCII decimal text, then the header (packed name, packed data
size) and the data follow. -/
def tpcc_serialize_table_block (name : String) (kvs : List (Bytes × Bytes)) :
    Bytes :=
  let data := (kvs.map (fun p => p.1 ++ p.2)).flatten
  let header := packStr name ++ packUint data.length
  asciiDec header.length ++ header ++ data

/-- The digest input of the tpcc-app writer for one table: header bytes
then data bytes (samples/apps/tpcc/app/snapshot.h:72-74); the ASCII size
field is not digested. -/
def tpcc_serialize_table_digest_input (name : String)
    (kvs : List (Bytes × Bytes)) : Bytes :=
  let data := (kvs.map (fun p => p.1 ++ p.2)).flatten
  let header := packStr name ++ packUint data.length
  header ++ data

/-- Whole snapshot file written by the tpcc-app writer over a sequence of
tables. -/
def tpcc_file (tables : List (String × List (Bytes × Bytes))) : Bytes :=
  (tables.map (fun t => tpcc_serialize_table_block t.1 t.2)).flatten

/-- Digest input accumulated by the tpcc-app writer over a sequence of
tables, in serialization order. -/
def tpcc_digest_input (tables : List (String × List (Bytes × Bytes))) :
    Bytes :=
  (tables.map (fun t => tpcc_serialize_table_digest_input t.1 t.2)).flatten

/-- Whitespace bytes skipped by formatted stream extraction. -/
def isWsByte (b : Nat) : Bool :=
  b = 9 ∨ b = 10 ∨ b = 11 ∨ b = 12 ∨ b = 13 ∨ b = 32

def isDigitByte (b : Nat) : Bool :=
  48 ≤ b ∧ b ≤ 57

/-- Formatted extraction `fs >> header_size` of `SnapshotReader::read`
(snapshot_reader.h:134-135): skip whitespace, then read a non-empty run of
decimal digits; extraction fails (and the subsequent `fs.read` throws)
when no digit follows. Returns the value and the new stream position. -/
def parseSizeText (file : Bytes) (pos : Nat) : Option (Nat × Nat) :=
  let p := pos + ((file.drop pos).takeWhile isWsByte).length
  let ds := (file.drop p).takeWhile isDigitByte
  if ds.isEmpty then none
  else some (ds.foldl (fun n d => n * 10 + (d - 48)) 0, p + ds.length)

/-- Unformatted `fs.read(buf, n)`: yields the `n` bytes at the stream
position, failing on a short read. -/
def readBytes (file : Bytes) (pos n : Nat) : Option (Bytes × Nat) :=
  if pos + n ≤ file.length then some ((file.drop pos).take n, pos + n)
  else none

/-- msgpack decoding of a string at `pos` (the `msgpack::unpack` of the
table name in the snapshot readers); handles the formats `packStr`
produces.  Returns the string and the offset after it. -/
def unpackStr (b : Bytes) (pos : Nat) : Option (String × Nat) :=
  match b.get? pos with
  | none => none
  | some c =>
    if 160 ≤ c ∧ c ≤ 191 then
      let len := c - 160
      if pos + 1 + len ≤ b.length then
        some (String.mk (((b.drop (pos + 1)).take len).map Char.ofNat),
          pos + 1 + len)
      else none
    else if c = 217 then
      match b.get? (pos + 1) with
      | none => none
      | some len =>
        if pos + 2 + len ≤ b.length then
          some (String.mk (((b.drop (pos + 2)).take len).map Char.ofNat),
            pos + 2 + len)
        else none
    else none

/-- msgpack decoding of an unsigned integer at `pos` (the `msgpack::unpack`
of the data size in the snapshot readers); handles the formats `packUint`
produces. -/
def unpackUint (b : Bytes) (pos : Nat) : Option (Nat × Nat) :=
  match b.get? pos with
  | none => none
  | some c =>
    if c < 128 then some (c, pos + 1)
    else if c = 204 then
      match b.get? (pos + 1) with
      | none => none
      | some x => some (x, pos + 2)
    else if c = 205 then
      match b.get? (pos + 1), b.get? (pos + 2) with
      | some x, some y => some (x * 256 + y, pos + 3)
      | _, _ => none
    else if c = 206 then
      match b.get? (pos + 1), b.get? (pos + 2), b.get? (pos + 3),
          b.get? (pos + 4) with
      | some x, some y, some z, some w =>
        some (((x * 256 + y) * 256 + z) * 256 + w, pos + 5)
      | _, _, _, _ => none
    else if c = 207 then
      match b.get? (pos + 1), b.get? (pos + 2), b.get? (pos + 3),
          b.get? (pos + 4), b.get? (pos + 5), b.get? (pos + 6),
          b.get? (pos + 7), b.get? (pos + 8) with
      | some x1, some x2, some x3, some x4, some x5, some x6, some x7,
          some x8 =>
        some (((((((x1 * 256 + x2) * 256 + x3) * 256 + x4) * 256 + x5) *
          256 + x6) * 256 + x7) * 256 + x8, pos + 9)
      | _, _, _, _, _, _, _, _ => none
    else none

/-- Embedding of the block loop of `SnapshotReader::read`
(snapshot_reader.h:127-173).  Faithful details: the loop guard compares
the running `offset` — advanced by `data_size + header_size + 2`
(`HEADER_SIZE_FIELD = 2`) per block — with the file size, while the actual
reads happen at the stream position, which advances by the number of
bytes consumed; the digest input accumulates header bytes then data bytes
per block; table buffers are keyed by table name.  Any failed extraction
or short read throws. -/
def read_blocks (file : Bytes) : Nat → Nat → Nat → List String →
    List (String × Bytes) → Bytes →
    Except String (List String × List (String × Bytes) × Bytes)
  | 0, _, _, _, _, _ => Except.error "fuel exhausted"
  | fuel + 1, streamPos, offset, names, bufs, dig =>
    if offset < file.length then
      match parseSizeText file streamPos with
      | none => Except.error "Snapshot read failed"
      | some (header_size, p1) =>
        match readBytes file p1 header_size with
        | none => Except.error "Snapshot read failed"
        | some (header, p2) =>
          match unpackStr header 0 with
          | none => Except.error "Snapshot read failed"
          | some (table_name, o1) =>
            match unpackUint header o1 with
            | none => Except.error "Snapshot read failed"
            | some (data_size, _) =>
              match readBytes file p2 data_size with
              | none => Except.error "Snapshot read failed"
              | some (data, p3) =>
                read_blocks file fuel p3
                  (offset + (data_size + header_size + 2))
                  (names ++ [table_name]) (bufs ++ [(table_name, data)])
                  (dig ++ header ++ data)
    else Except.ok (names, bufs, dig)

/-- The hash comparison loop of `SnapshotReader::verify_hash`
(snapshot_reader.h:84-92): for each index of the signed hash, compare the
signed byte with the recomputed digest byte.  The source indexes the raw
digest pointer without a bound check; indexing past the recomputed digest
is modelled as reading `0`. -/
def hash_check_loop (signed computed : Bytes) : Bool :=
  (List.range signed.length).all
    (fun i => signed.getD i 0 == computed.getD i 0)

/-- Embedding of `SnapshotReader::verify_hash` (snapshot_reader.h:72-93):
the trusted hash for the snapshot's version is fetched from the key-value
store (absence throws); then the comparison loop runs over the indices of
the stored hash only. -/
def verify_hash (signedOpt : Option Bytes) (computed : Bytes) :
    Except String Unit :=
  match signedOpt with
  | none => Except.error "Snapshot verification failed"
  | some signed =>
    if hash_check_loop signed computed then Except.ok ()
    else Except.error "Snapshot verification failed"

/-- State of a `SnapshotReader` (snapshot_reader.h:59-108): the snapshot
version (keying the trusted hash in the KV store), the `is_read` flag and
the per-table data buffers. -/
structure SnapshotReaderSt where
  version : Nat
  is_read : Bool
  table_buffers : List (String × Bytes)
  deriving Repr, DecidableEq

/-- Embedding of `SnapshotReader::read` (snapshot_reader.h:115-180).
`digest` is the external running-hash finalization (libbyz `Digest`) over
the accumulated digest input; `snapshotsView` is the KV lookup of the
trusted hash by version.  The returned `Bool` records whether the file
was read at all: when `is_read` is already set the method returns an
empty table list immediately, touching neither the file nor the digest. -/
def SnapshotReader.read (digest : Bytes → Bytes)
    (snapshotsView : Nat → Option Bytes) (file : Bytes)
    (st : SnapshotReaderSt) :
    Except String (List String × SnapshotReaderSt × Bool) :=
  if st.is_read then Except.ok ([], st, false)
  else
    match read_blocks file (file.length + 1) 0 0 [] [] [] with
    | Except.error e => Except.error e
    | Except.ok (names, bufs, dig) =>
      match verify_hash (snapshotsView st.version) (digest dig) with
      | Except.error e => Except.error e
      | Except.ok _ =>
        Except.ok (names,
          { st with is_read := true, table_buffers := bufs }, true)

/-- Embedding of `SnapshotReader::get_table_snapshot`
(snapshot_reader.h:182-197): before a successful `read` it returns null
(`none`); afterwards a missing table throws and a present table yields its
buffer (the `TableSnapshot` constructed from that buffer decodes it into
the typed map). -/
def SnapshotReader.get_table_snapshot (st : SnapshotReaderSt)
    (table : String) : Except String (Option Bytes) :=
  if st.is_read = false then Except.ok none
  else
    match st.table_buffers.lookup table with
    | none => Except.error "Snapshot read error"
    | some buf => Except.ok (some buf)

/-- The inner loop of `HistoryQuery::process_domain` (history_query.h:46-69)
over the decoded `histories` updates in key order: entries dated before
`dateFrom` are skipped, entries inside the window push `val.c_id`, and the
first entry dated past `dateTo` stops the scan, reporting that the range
was exceeded. -/
def process_updates (dateFrom dateTo : Nat) (updates : List (Nat × History))
    (results : List Nat) : List Nat × Bool :=
  match updates with
  | [] => (results, false)
  | (_, v) :: rest =>
    if dateFrom ≤ v.date then
      if v.date ≤ dateTo then
        process_updates dateFrom dateTo rest (results ++ [v.c_id])
      else (results, true)
    else process_updates dateFrom dateTo rest results

/-- Embedding of `HistoryQuery::process_domain` (history_query.h:36-72):
skip domains whose table-name list lacks `"histories"`, otherwise scan the
decoded updates. -/
def process_domain (dateFrom dateTo : Nat) (d : Domain)
    (results : List Nat) : List Nat × Bool :=
  if "histories" ∈ d.table_names then
    process_updates dateFrom dateTo d.histUpdates results
  else (results, false)

/-- The per-batch loop bodies of `query_ledger_verified` and
`query_snapshots` (history_query.h:138-144, 217-221): process each domain
of the batch, returning early once the range is exceeded. -/
def process_batch (dateFrom dateTo : Nat) (batch : List Domain)
    (results : List Nat) : List Nat × Bool :=
  match batch with
  | [] => (results, false)
  | d :: ds =>
    match process_domain dateFrom dateTo d results with
    | (r, true) => (r, true)
    | (r, false) => process_batch dateFrom dateTo ds r

/-- The verified-replay loop shared by `query_ledger_verified`
(history_query.h:130-145) and the replay phase of `query_snapshots`
(history_query.h:208-222): while the cursor has frames left, read a batch
(a null batch throws), process its domains, and stop once the range is
exceeded.  Fuel-driven; `frames.length + 1` fuel always suffices since
`read_batch` consumes at least one frame. -/
def query_replay_loop (env : VerifyEnv) (dateFrom dateTo : Nat) :
    Nat → LedgerReader → List Domain → List Nat → Except String (List Nat)
  | 0, _, _, _ => Except.error "fuel exhausted"
  | fuel + 1, st, frames, results =>
    if frames.isEmpty then Except.ok results
    else
      match LedgerReader.read_batch env true st frames with
      | Except.error e => Except.error e
      | Except.ok (none, _, _) =>
        Except.error "Ledger Read Failed: Could not verify batch"
      | Except.ok (some batch, st', rest) =>
        match process_batch dateFrom dateTo batch results with
        | (r, true) => Except.ok r
        | (r, false) => query_replay_loop env dateFrom dateTo fuel st' rest r

/-- Embedding of `HistoryQuery::query_ledger_verified`
(history_query.h:119-146): full verified replay over the whole ledger from
a fresh from-zero reader. -/
def query_ledger_verified (env : VerifyEnv) (dateFrom dateTo : Nat)
    (frames : List Domain) : Except String (List Nat) :=
  query_replay_loop env dateFrom dateTo (frames.length + 1)
    LedgerReader.fromStart frames []

/-- Parsed content of a snapshot file as the snapshot phase of
`query_snapshots` consumes it: the table names returned by
`SnapshotReader::read` and the decoded `histories` table
(`TableSnapshot::get_table`, a `std::map` listed in key order).  The
byte-level reader is embedded separately (`SnapshotReader.read`); within
the query composition it is abstracted to its parsed result. -/
structure SnapContent where
  tables : List String
  histories : List (Nat × History)

/-- The snapshot-phase filter of `query_snapshots` (history_query.h:184-201):
when the snapshot lists a `histories` table, every entry whose date lies in
the window appends `iter->first` — the history id key, not the entry's
`c_id` — to the results. -/
def snapshot_phase (dateFrom dateTo : Nat) (c : SnapContent) : List Nat :=
  if "histories" ∈ c.tables then
    c.histories.foldl
      (fun acc kh =>
        if dateFrom ≤ kh.2.date ∧ kh.2.date ≤ dateTo then acc ++ [kh.1]
        else acc) []
  else []

/-- Embedding of `HistoryQuery::query_snapshots` (history_query.h:148-223).
The ledger is the list of frames with their starting byte offsets; a
`LedgerReader` constructed at `start.get_ledger_offset()` sees exactly the
frames from that offset on.  Selection, snapshot phase and verified replay
compose as in the source; `content` abstracts the snapshot-file read to
its parsed result. -/
def query_snapshots (env : VerifyEnv) (dateFrom dateTo : Nat)
    (snaps : List Snapshot) (content : Snapshot → SnapContent)
    (ledger : List (Nat × Domain)) : Except String (List Nat) :=
  match query_snapshots_select snaps dateFrom dateTo with
  | none => Except.ok []
  | some start =>
    let results := snapshot_phase dateFrom dateTo (content start)
    let frames := (ledger.filter
      (fun fr => start.ledger_offset ≤ fr.1)).map (fun fr => fr.2)
    query_replay_loop env dateFrom dateTo (frames.length + 1)
      (LedgerReader.atOffset []) frames results

/-- Little-endian read of 4 bytes at `off` (the
`CommonSerializer::deserialize<uint32_t>` of the frame codec).  Bytes past
the buffer are modelled as `0` (the source reads raw memory with no bound
check). -/
def readU32LE (buf : Bytes) (off : Nat) : Nat :=
  buf.getD off 0 + 256 * buf.getD (off + 1) 0 + 65536 * buf.getD (off + 2) 0
    + 16777216 * buf.getD (off + 3) 0

/-- Little-endian read of 8 bytes at `off`
(`CommonSerializer::deserialize<uint64_t>`). -/
def readU64LE (buf : Bytes) (off : Nat) : Nat :=
  (List.range 8).foldr (fun i acc => buf.getD (off + i) 0 + 256 * acc) 0

/-- Header metadata produced by `Ledger::iterator::read_header`
(ledger_util.h:232-262). -/
structure FrameHeader where
  txn_size : Nat
  txn_offset : Nat
  domain_size : Nat
  domain_offset : Nat
  iter_next : Nat
  deriving Repr, DecidableEq

/-- Embedding of `Ledger::iterator::read_header` (ledger_util.h:232-262):
read the `u32 LE` transaction size at the iterator offset, set
`txn_offset` past the 4-byte size field, advance the iterator offset by
`txn_size + 4`, skip the 28-byte GCM header, read the `u64 LE` public
domain size, and set `domain_offset` past the domain-size field.  The
function performs no validation of any kind and cannot fail. -/
def read_header (buf : Bytes) (iter_offset : Nat) : FrameHeader :=
  let txn_size := readU32LE buf iter_offset
  let txn_offset := iter_offset + 4
  let iter_next := iter_offset + (txn_size + 4)
  let domain_size := readU64LE buf (txn_offset + 28)
  let domain_offset := txn_offset + 28 + 8
  ⟨txn_size, txn_offset, domain_size, domain_offset, iter_next⟩

/-- Modelled from the spec (frame codec, §4.1): the checked reader the
claim describes, written independently of `read_header`.  It decodes
`frame_size` and the public-payload region and fails with `MalformedFrame`
when `public_offset + public_size` exceeds the frame (sizes are `Nat`, so
the source-level overflow case cannot arise in the model). -/
def read_header_spec (buf : Bytes) (iter_offset : Nat) :
    Option FrameHeader :=
  let frame_size := readU32LE buf iter_offset
  let public_size := readU64LE buf (iter_offset + 4 + 28)
  let public_offset := iter_offset + 4 + 28 + 8
  if public_offset + public_size ≤ iter_offset + 4 + frame_size then
    some ⟨frame_size, iter_offset + 4, public_size, public_offset,
      iter_offset + frame_size + 4⟩
  else none

/-! Concrete instances used by counterexamples, code-bug evaluations and
witnesses. -/

/-- Environment in which every signature check fails (a tampered batch). -/
def envC1 : VerifyEnv :=
  ⟨1000, id, fun n => if n = 0 then some [5] else none, fun _ _ _ => false⟩

/-- A signature frame: version 2, raw bytes `[2]`, one `ccf.signatures`
update by node 0. -/
def dsigC1 : Domain := ⟨2, [2], ["histories"], [], some ⟨0, [9]⟩⟩

/-- Environment in which every signature check succeeds. -/
def envC2 : VerifyEnv :=
  ⟨1000, id, fun n => if n = 0 then some [5] else none, fun _ _ _ => true⟩

/-- A frame carrying one `histories` write: history id 1, customer id 7,
date 50. -/
def dHist : Domain := ⟨1, [1], ["histories"], [(1, ⟨7, 50⟩)], none⟩

/-- A registered snapshot of version 5 at ledger offset 100 (past both
frames of the example ledger) with index value 50. -/
def snapC2 : Snapshot := ⟨5, 100, "snapshot_v5", [], 50, "merkle"⟩

/-- The parsed content of `snapC2`'s file: the one history entry folded in. -/
def contentC2 : Snapshot → SnapContent :=
  fun _ => ⟨["histories"], [(1, ⟨7, 50⟩)]⟩

/-- The example ledger: the history frame at byte offset 0, the signature
frame at byte offset 60. -/
def ledgerC2 : List (Nat × Domain) := [(0, dHist), (60, dsigC1)]

/-- Environment whose signature check accepts exactly the Merkle root a
from-zero replay exhibits when reaching the signature frame (the window
holding the leaf of `dHist`). -/
def envC5 : VerifyEnv :=
  ⟨1000, id, fun n => if n = 0 then some [5] else none,
    fun _ root _ => decide (root = [[1]])⟩

/-- Registered snapshots with index values 10, 20 and 30. -/
def snapA : Snapshot := ⟨1, 10, "snapshot_v1", [], 10, "ma"⟩

def snapB : Snapshot := ⟨2, 20, "snapshot_v2", [], 20, "mb"⟩

def snapC : Snapshot := ⟨3, 30, "snapshot_v3", [], 30, "mc"⟩

/-- A malformed frame buffer: `frame_size = 40` (the frame ends at byte 44)
but `public_size = 100`, so the public region `[40, 140)` exceeds the
frame. -/
def bufC7 : Bytes := [40, 0, 0, 0] ++ List.replicate 28 0 ++
  [100, 0, 0, 0, 0, 0, 0, 0]

/-- A well-formed frame buffer: `frame_size = 36`, `public_size = 0`; the
public region `[40, 40)` lies inside the frame `[4, 40)`. -/
def bufOK : Bytes := [36, 0, 0, 0] ++ List.replicate 28 0 ++
  [0, 0, 0, 0, 0, 0, 0, 0]

/-- Conditions under which one tpcc-app snapshot block parses back
exactly: the data size lies in the `size_t` range (below `2^64` — forced
by the machine integer width, not by the format; every C++ buffer size
satisfies it), and the header is 10-99 bytes long, so that the ASCII
decimal header-size field occupies exactly the `HEADER_SIZE_FIELD = 2`
bytes the reader budgets for it in its loop-guard offset accounting.  (A
10-99-byte header in turn forces the packed name into the fixstr/str8
formats.) -/
def blockGood (t : String × List (Bytes × Bytes)) : Prop :=
  ((t.2.map (fun p => p.1 ++ p.2)).flatten).length < 18446744073709551616 ∧
  10 ≤ (packStr t.1 ++
    packUint ((t.2.map (fun p => p.1 ++ p.2)).flatten).length).length ∧
  (packStr t.1 ++
    packUint ((t.2.map (fun p => p.1 ++ p.2)).flatten).length).length < 100

/-- A one-write update queue for the C4 examples: key `[1]`, value `[2]`. -/
def qC4 : List KeyValueUpdate := [([1], [2], KvAction.WRITE)]

/-- A one-table input to the tpcc-app writer: table `histories`, one packed
(key, value) byte pair. -/
def tblC4 : List (String × List (Bytes × Bytes)) := [("histories", [([1], [2])])]

instance (t : String × List (Bytes × Bytes)) : Decidable (blockGood t) := by
  unfold blockGood
  infer_instance

/-- A chronological update stream: key `[1]` written twice (values `[10]`
then `[11]`), key `[2]` written then removed. -/
def txsC3 : List KeyValueUpdate :=
  [([1], [10], KvAction.WRITE), ([2], [20], KvAction.WRITE),
   ([1], [11], KvAction.WRITE), ([2], [21], KvAction.REMOVE)]

/-! Helper lemmas. -/

theorem mem_slInsert (l : List Snapshot) (s x : Snapshot) :
    x ∈ slInsert l s ↔ x = s ∨ x ∈ l := by
  induction l with
  | nil => simp [slInsert]
  | cons y ys ih =>
    by_cases h : s.index_value < y.index_value
    · simp [slInsert, h]
    · simp [slInsert, h, ih]
      tauto

/-! Claim theorems. -/

/-- Claim C1 (code bug): with a signature that does not verify,
`verify_batch` reports `false`, yet `read_batch` still returns the full
batch rather than a null batch — the verdict is overwritten by
`verified = true` ("Workaround for memory corruption bug",
ledger_reader.h:118), so a batch is returned even though the signature in
its last frame does not verify against the current Merkle root. -/
theorem claim_C1_unverified_batch_returned :
    LedgerReader.verify_batch envC1 LedgerReader.fromStart dsigC1 =
      Except.ok (false, LedgerReader.fromStart)
    ∧ LedgerReader.read_batch envC1 true LedgerReader.fromStart [dsigC1] =
      Except.ok (some [dsigC1], ⟨⟨0, [[2]]⟩, false⟩, []) :=
  ⟨rfl, rfl⟩

/-- Claim C2 (code bug): on a ledger holding one history entry with
history id 1, customer id 7 and date 50, covered by a registered snapshot
with `index_value = 50 ≤ from`, the snapshot-accelerated query returns
`[1]` (it appends `iter->first`, the history id, history_query.h:195)
while the full verified replay returns `[7]` (it appends `val.c_id`), so
the two strategies do not return the same multiset. -/
theorem claim_C2_snapshot_appends_key_not_cid :
    query_snapshots envC2 50 100 [snapC2] contentC2 ledgerC2 =
      Except.ok [1]
    ∧ query_ledger_verified envC2 50 100 [dHist, dsigC1] = Except.ok [7]
    ∧ snapC2.index_value ≤ 50 :=
  ⟨rfl, rfl, by decide⟩

/-- Claim C5 (code bug): the resume constructor discards the Merkle
witness (`read_merkle_file`'s result is ignored, ledger_reader.h:94) and
starts from an empty Merkle history, so at the next signature frame the
resumed reader's root is the empty window while the from-zero reader's
root holds the leaves of the preceding frames; with a root-sensitive
signature check, verification succeeds from zero and fails on the resumed
reader — and `read_batch` still returns the batch on the resumed reader. -/
theorem claim_C5_resume_discards_witness :
    (LedgerReader.atOffset [3]).merkle = MerkleTreeHistory.empty
    ∧ LedgerReader.read_batch envC5 true LedgerReader.fromStart
        [dHist, dsigC1] =
        Except.ok (some [dHist, dsigC1], ⟨⟨0, [[1], [2]]⟩, false⟩, [])
    ∧ LedgerReader.verify_batch envC5 ⟨⟨0, [[1]]⟩, false⟩ dsigC1 =
        Except.ok (true, ⟨⟨0, [[1]]⟩, false⟩)
    ∧ LedgerReader.verify_batch envC5 (LedgerReader.atOffset [3]) dsigC1 =
        Except.ok (false, LedgerReader.atOffset [3])
    ∧ (⟨⟨0, [[1]]⟩, false⟩ : LedgerReader).merkle.get_root ≠
        (LedgerReader.atOffset [3]).merkle.get_root
    ∧ LedgerReader.read_batch envC5 true (LedgerReader.atOffset [3])
        [dsigC1] =
        Except.ok (some [dsigC1], ⟨⟨0, [[2]]⟩, true⟩, []) :=
  ⟨rfl, rfl, rfl, rfl, by decide, rfl⟩

/-- Claim C8: `SnapshotManager::append` inserts the snapshot if and only
if its `index_value` differs from the default-constructed (null)
`TimePoint`; a null `index_value` leaves the index unchanged, and the
invariant that every indexed snapshot has a non-null `index_value` is
preserved. -/
theorem claim_C8_append_iff_indexed (l : List Snapshot) (s : Snapshot) :
    (s.index_value = nullTime → SnapshotManager.append l s = l)
    ∧ (s.index_value ≠ nullTime →
        s ∈ SnapshotManager.append l s
        ∧ ∀ x ∈ SnapshotManager.append l s, x ∈ l ∨ x = s)
    ∧ ((∀ x ∈ l, x.index_value ≠ nullTime) →
        ∀ x ∈ SnapshotManager.append l s, x.index_value ≠ nullTime) := by
  constructor
  · intro h
    simp [SnapshotManager.append, h]
  constructor
  · intro h
    constructor
    · simp [SnapshotManager.append, h, mem_slInsert]
    · intro x hx
      simp [SnapshotManager.append, h, mem_slInsert] at hx
      tauto
  · intro hinv x hx
    by_cases h : s.index_value = nullTime
    · simp [SnapshotManager.append, h] at hx
      exact hinv x hx
    · simp [SnapshotManager.append, h, mem_slInsert] at hx
      rcases hx with rfl | hx
      · exact h
      · exact hinv x hx

/-- Witness for claim C8 at concrete inputs: a snapshot with the null
index value is ignored, one with index value 20 is inserted. -/
theorem claim_C8_append_iff_indexed_witness :
    SnapshotManager.append [snapA] ⟨0, 0, "", [], 0, ""⟩ = [snapA]
    ∧ snapB ∈ SnapshotManager.append [snapA] snapB :=
  ⟨(claim_C8_append_iff_indexed [snapA] ⟨0, 0, "", [], 0, ""⟩).1 rfl,
    ((claim_C8_append_iff_indexed [snapA] snapB).2.1 (by decide)).1⟩

/-- Claim C9: a second `read()` on an already-read `SnapshotReader`
returns an empty table list without touching the file or the digest
(the `Bool` component records file access), and `get_table_snapshot`
before any successful `read()` returns null rather than table data. -/
theorem claim_C9_read_once_guards (digest : Bytes → Bytes)
    (view : Nat → Option Bytes) (file : Bytes) (st : SnapshotReaderSt)
    (tbl : String) :
    (st.is_read = true →
      SnapshotReader.read digest view file st = Except.ok ([], st, false))
    ∧ (st.is_read = false →
      SnapshotReader.get_table_snapshot st tbl = Except.ok none) := by
  constructor
  · intro h
    simp [SnapshotReader.read, h]
  · intro h
    simp [SnapshotReader.get_table_snapshot, h]

/-- Witness for claim C9 at concrete inputs. -/
theorem claim_C9_read_once_guards_witness :
    SnapshotReader.read id (fun _ => none) [1, 2] ⟨5, true, []⟩ =
      Except.ok ([], ⟨5, true, []⟩, false)
    ∧ SnapshotReader.get_table_snapshot ⟨5, false, []⟩ "histories" =
      Except.ok none :=
  ⟨(claim_C9_read_once_guards id (fun _ => none) [1, 2] ⟨5, true, []⟩
      "histories").1 rfl,
    (claim_C9_read_once_guards id (fun _ => none) [1, 2] ⟨5, false, []⟩
      "histories").2 rfl⟩

theorem takeWhile_len_le (p : Snapshot → Bool) (l : List Snapshot) :
    (l.takeWhile p).length ≤ l.length := by
  induction l with
  | nil => simp
  | cons x xs ih =>
    by_cases h : p x
    · simp [List.takeWhile_cons, h]
      omega
    · simp [List.takeWhile_cons, h]

theorem lowerBound_le_length (snaps : List Snapshot) (v : Nat) :
    lowerBound snaps v ≤ snaps.length := by
  simpa [lowerBound] using takeWhile_len_le _ snaps

theorem lowerBound_cons_pos (x : Snapshot) (xs : List Snapshot) (v : Nat)
    (h : x.index_value < v) :
    lowerBound (x :: xs) v = lowerBound xs v + 1 := by
  simp [lowerBound, List.takeWhile_cons, h]

theorem lowerBound_cons_neg (x : Snapshot) (xs : List Snapshot) (v : Nat)
    (h : ¬ x.index_value < v) :
    lowerBound (x :: xs) v = 0 := by
  simp [lowerBound, List.takeWhile_cons, h]

theorem lowerBound_get_ge (snaps : List Snapshot) (v : Nat) (s : Snapshot)
    (h : snaps.get? (lowerBound snaps v) = some s) : v ≤ s.index_value := by
  induction snaps with
  | nil => simp at h
  | cons x xs ih =>
    by_cases hx : x.index_value < v
    · rw [lowerBound_cons_pos x xs v hx] at h
      exact ih (by simpa using h)
    · rw [lowerBound_cons_neg x xs v hx] at h
      simp at h
      subst h
      omega

theorem lowerBound_mono (snaps : List Snapshot) (f t : Nat) (h : f ≤ t) :
    lowerBound snaps f ≤ lowerBound snaps t := by
  induction snaps with
  | nil => simp [lowerBound]
  | cons x xs ih =>
    by_cases hf : x.index_value < f
    · rw [lowerBound_cons_pos x xs f hf,
        lowerBound_cons_pos x xs t (by omega)]
      omega
    · rw [lowerBound_cons_neg x xs f hf]
      omega

theorem lowerBound_eq_zero_iff (snaps : List Snapshot) (t : Nat)
    (hs : List.Pairwise
      (fun a b : Snapshot => a.index_value ≤ b.index_value) snaps) :
    lowerBound snaps t = 0 ↔ ∀ s ∈ snaps, t ≤ s.index_value := by
  induction snaps with
  | nil => simp [lowerBound]
  | cons x xs ih =>
    rcases List.pairwise_cons.mp hs with ⟨hx, hxs⟩
    by_cases hlt : x.index_value < t
    · rw [lowerBound_cons_pos x xs t hlt]
      constructor
      · intro h
        exact absurd h (by omega)
      · intro habs
        have := habs x (by simp)
        omega
    · rw [lowerBound_cons_neg x xs t hlt]
      constructor
      · intro _ s hmem
        rcases List.mem_cons.mp hmem with rfl | hmem
        · omega
        · exact le_trans (by omega) (hx s hmem)
      · intro _
        rfl

theorem claim_C6_amended (snaps : List Snapshot) (f t : Nat)
    (hs : List.Pairwise
      (fun a b : Snapshot => a.index_value ≤ b.index_value) snaps)
    (hft : f ≤ t) :
    (query_snapshots_select snaps f t = none ↔
      ∀ s ∈ snaps, t ≤ s.index_value)
    ∧ (∀ s, query_snapshots_select snaps f t = some s →
        (lowerBound snaps f < snaps.length →
          snaps.get? (lowerBound snaps f) = some s ∧ f ≤ s.index_value)
        ∧ (lowerBound snaps f = snaps.length →
          snaps.get? (snaps.length - 1) = some s)) := by
  have hle := lowerBound_le_length snaps f
  have hlet := lowerBound_le_length snaps t
  have hmono := lowerBound_mono snaps f t hft
  by_cases hcond : lowerBound snaps f = 0 ∧ lowerBound snaps t = 0
  · have hnone : query_snapshots_select snaps f t = none := by
      simp [query_snapshots_select, hcond.1, hcond.2]
    constructor
    · rw [hnone]
      simp only [true_iff]
      exact fun s hmem => (lowerBound_eq_zero_iff snaps t hs).mp hcond.2 s hmem
    · intro s hsel
      rw [hnone] at hsel
      exact absurd hsel (by simp)
  · have hlen : 0 < snaps.length := by
      rcases Nat.eq_zero_or_pos snaps.length with h0 | h
      · exfalso
        exact hcond ⟨by omega, by omega⟩
      · exact h
    have hsome : query_snapshots_select snaps f t =
        snaps.get? (if lowerBound snaps f = snaps.length
          then lowerBound snaps f - 1 else lowerBound snaps f) := by
      simp only [query_snapshots_select]
      rw [if_neg hcond]
    have hj : (if lowerBound snaps f = snaps.length
        then lowerBound snaps f - 1 else lowerBound snaps f) <
        snaps.length := by
      by_cases he : lowerBound snaps f = snaps.length
      · rw [if_pos he]
        omega
      · rw [if_neg he]
        omega
    constructor
    · rw [hsome]
      constructor
      · intro hnone
        exfalso
        rw [List.get?_eq_none] at hnone
        omega
      · intro hall
        exfalso
        have h0 : lowerBound snaps t = 0 :=
          (lowerBound_eq_zero_iff snaps t hs).mpr hall
        exact hcond ⟨by omega, h0⟩
    · intro s hsel
      rw [hsome] at hsel
      constructor
      · intro hltf
        have hne : ¬ lowerBound snaps f = snaps.length := by omega
        rw [if_neg hne] at hsel
        exact ⟨hsel, lowerBound_get_ge snaps f s hsel⟩
      · intro heq
        rw [if_pos heq] at hsel
        rw [heq] at hsel
        exact hsel

theorem claim_C6_counterexample :
    query_snapshots_select [snapA, snapB, snapC] 15 100 = some snapB
    ∧ snapA ∈ [snapA, snapB, snapC]
    ∧ snapA.index_value < 15
    ∧ ¬ snapB.index_value < 15 :=
  ⟨by decide, by simp, by decide, by decide⟩

theorem claim_C6_amended_witness :
    (15:Nat) ≤ 100
    ∧ (query_snapshots_select [snapA, snapB, snapC] 200 300 = none ↔
        ∀ s ∈ [snapA, snapB, snapC], 300 ≤ s.index_value) :=
  ⟨by omega,
    (claim_C6_amended [snapA, snapB, snapC] 200 300 (by decide) (by omega)).1⟩

theorem claim_C7_amended (buf : Bytes) (off : Nat) :
    (∀ h, read_header_spec buf off = some h → h = read_header buf off)
    ∧ (read_header_spec buf off = none →
        off + 4 + (read_header buf off).txn_size <
        (read_header buf off).domain_offset +
          (read_header buf off).domain_size) := by
  by_cases hc : off + 4 + 28 + 8 + readU64LE buf (off + 4 + 28) ≤
      off + 4 + readU32LE buf off
  · constructor
    · intro h hspec
      simp only [read_header_spec, if_pos hc] at hspec
      rw [← Option.some_inj.mp hspec]
      simp only [read_header, FrameHeader.mk.injEq, true_and, and_true,
        eq_self_iff_true]
      omega
    · intro hspec
      exfalso
      simp only [read_header_spec, if_pos hc] at hspec
      exact Option.noConfusion hspec
  · constructor
    · intro h hspec
      exfalso
      simp only [read_header_spec, if_neg hc] at hspec
      exact Option.noConfusion hspec
    · intro _
      simp only [read_header]
      omega

theorem claim_C7_counterexample :
    read_header bufC7 0 = ⟨40, 4, 100, 40, 44⟩
    ∧ read_header_spec bufC7 0 = none
    ∧ 0 + 4 + (read_header bufC7 0).txn_size <
        (read_header bufC7 0).domain_offset +
          (read_header bufC7 0).domain_size :=
  ⟨by decide, by decide, by decide⟩

theorem claim_C7_amended_witness :
    read_header_spec bufOK 0 = some (read_header bufOK 0) := by
  have h1 : read_header_spec bufOK 0 = some ⟨36, 4, 0, 40, 40⟩ := by decide
  rw [h1, (claim_C7_amended bufOK 0).1 ⟨36, 4, 0, 40, 40⟩ h1]

theorem claim_C10_prefix_verification (signed computed : Bytes)
    (h : signed.length ≤ computed.length) :
    (hash_check_loop signed computed = true ↔
      signed = computed.take signed.length)
    ∧ hash_check_loop [] computed = true
    ∧ (verify_hash (some signed) computed = Except.ok () ↔
        hash_check_loop signed computed = true)
    ∧ verify_hash none computed =
        Except.error "Snapshot verification failed" := by
  have hmain : hash_check_loop signed computed = true ↔
      signed = computed.take signed.length := by
    rw [hash_check_loop, List.all_eq_true]
    constructor
    · intro hall
      have hlen : signed.length = (computed.take signed.length).length := by
        simp
        omega
      apply List.ext_getElem hlen
      intro i h1 h2
      have hi : i < signed.length := h1
      have hcall := hall i (List.mem_range.mpr hi)
      rw [beq_iff_eq] at hcall
      rw [List.getD_eq_getElem signed 0 h1,
        List.getD_eq_getElem computed 0 (by omega)] at hcall
      rw [hcall]
      exact (List.getElem_take computed).symm
    · intro heq i hmem
      have hi : i < signed.length := List.mem_range.mp hmem
      rw [beq_iff_eq]
      have h1 : signed.get? i = (computed.take signed.length).get? i := by
        rw [← heq]
      rw [List.get?_take hi] at h1
      rw [List.getD_eq_getD_get?, List.getD_eq_getD_get?, h1]
  refine ⟨hmain, by simp [hash_check_loop], ?_, rfl⟩
  by_cases hb : hash_check_loop signed computed = true
  · simp [verify_hash, hb]
  · simp [verify_hash, hb]

theorem claim_C10_prefix_verification_witness :
    ([1, 2] : Bytes).length ≤ ([1, 2, 3] : Bytes).length
    ∧ (hash_check_loop [1, 2] [1, 2, 3] = true ↔
        ([1, 2] : Bytes) = ([1, 2, 3] : Bytes).take ([1, 2] : Bytes).length)
    ∧ hash_check_loop [] [1, 2, 3] = true :=
  ⟨by decide,
    (claim_C10_prefix_verification [1, 2] [1, 2, 3] (by decide)).1,
    (claim_C10_prefix_verification [1, 2] [1, 2, 3] (by decide)).2.1⟩

theorem foldl_append_update (txs : List KeyValueUpdate) :
    ∀ acc, txs.foldl append_update acc = txs.reverse ++ acc := by
  induction txs with
  | nil => intro acc; simp
  | cons u us ih =>
    intro acc
    simp only [List.foldl_cons, List.reverse_cons]
    rw [ih (append_update acc u)]
    simp [append_update]

theorem buildQueue_eq_reverse (txs : List KeyValueUpdate) :
    buildQueue txs = txs.reverse := by
  simpa using foldl_append_update txs []

theorem getLast?_cons_ne_nil (a : KeyValueUpdate) (l : List KeyValueUpdate)
    (h : l ≠ []) : (a :: l).getLast? = l.getLast? := by
  cases l with
  | nil => exact absurd rfl h
  | cons b bs => simp [List.getLast?_cons_cons]

theorem getLast?_filter_eq_find?_reverse (p : KeyValueUpdate → Bool)
    (l : List KeyValueUpdate) :
    (l.filter p).getLast? = l.reverse.find? p := by
  induction l with
  | nil => simp
  | cons u us ih =>
    rw [List.reverse_cons, List.find?_append, ← ih]
    rcases hlast : (us.filter p).getLast? with _ | x
    · have hemp : us.filter p = [] := List.getLast?_eq_none_iff.mp hlast
      by_cases hu : p u
      · rw [List.filter_cons_of_pos hu, hemp]
        simp [List.find?_cons, hu]
      · rw [List.filter_cons_of_neg (by simpa using hu), hemp]
        simp [List.find?_cons, hu]
    · have hne : us.filter p ≠ [] := by
        intro habs
        rw [habs] at hlast
        exact Option.noConfusion hlast
      by_cases hu : p u
      · rw [List.filter_cons_of_pos hu, getLast?_cons_ne_nil u _ hne,
          hlast]
        rfl
      · rw [List.filter_cons_of_neg (by simpa using hu), hlast]
        rfl

theorem serialize_pairs_cons_seen (seen : List Bytes) (k v : Bytes)
    (a : KvAction) (rest : List KeyValueUpdate) (h : k ∈ seen) :
    serialize_table_pairs seen ((k, v, a) :: rest) =
    serialize_table_pairs seen rest := by
  rw [serialize_table_pairs.eq_def]
  simp [h]

theorem serialize_pairs_cons_write (seen : List Bytes) (k v : Bytes)
    (rest : List KeyValueUpdate) (h : k ∉ seen) :
    serialize_table_pairs seen ((k, v, KvAction.WRITE) :: rest) =
    (k, v) :: serialize_table_pairs (k :: seen) rest := by
  rw [serialize_table_pairs.eq_def]
  simp [h]

theorem serialize_pairs_cons_remove (seen : List Bytes) (k v : Bytes)
    (rest : List KeyValueUpdate) (h : k ∉ seen) :
    serialize_table_pairs seen ((k, v, KvAction.REMOVE) :: rest) =
    serialize_table_pairs (k :: seen) rest := by
  rw [serialize_table_pairs.eq_def]
  simp [h]

theorem serialize_pairs_of_seen (q : List KeyValueUpdate) :
    ∀ seen k, k ∈ seen →
    pairsFor k (serialize_table_pairs seen q) = [] := by
  induction q with
  | nil =>
    intro seen k hk
    simp [serialize_table_pairs, pairsFor]
  | cons u rest ih =>
    intro seen k hk
    obtain ⟨ku, vu, au⟩ := u
    by_cases hku : ku ∈ seen
    · rw [serialize_pairs_cons_seen seen ku vu au rest hku]
      exact ih seen k hk
    · have hne : ¬ (ku = k) := fun h => hku (h ▸ hk)
      cases au with
      | WRITE =>
        rw [serialize_pairs_cons_write seen ku vu rest hku, pairsFor,
          List.filter_cons_of_neg (by simpa using hne)]
        exact ih (ku :: seen) k (List.mem_cons_of_mem ku hk)
      | REMOVE =>
        rw [serialize_pairs_cons_remove seen ku vu rest hku]
        exact ih (ku :: seen) k (List.mem_cons_of_mem ku hk)

theorem serialize_pairs_not_seen (q : List KeyValueUpdate) :
    ∀ seen k, k ∉ seen →
    pairsFor k (serialize_table_pairs seen q) =
      (match q.find? (fun u => u.1 = k) with
        | some (_, v, KvAction.WRITE) => [(k, v)]
        | some (_, _, KvAction.REMOVE) => []
        | none => []) := by
  induction q with
  | nil =>
    intro seen k _
    simp [serialize_table_pairs, pairsFor]
  | cons u rest ih =>
    intro seen k hk
    obtain ⟨ku, vu, au⟩ := u
    by_cases hku : ku ∈ seen
    · have hne : ¬ (ku = k) := fun h => hk (h ▸ hku)
      rw [serialize_pairs_cons_seen seen ku vu au rest hku,
        List.find?_cons_of_neg _ (by simpa using hne)]
      exact ih seen k hk
    · by_cases hek : ku = k
      · subst hek
        rw [List.find?_cons_of_pos _ (by simp)]
        cases au with
        | WRITE =>
          rw [serialize_pairs_cons_write seen ku vu rest hku, pairsFor,
            List.filter_cons_of_pos (by simp)]
          rw [show (serialize_table_pairs (ku :: seen) rest).filter
              (fun p => decide (p.1 = ku)) =
              pairsFor ku (serialize_table_pairs (ku :: seen) rest) from rfl]
          rw [serialize_pairs_of_seen rest (ku :: seen) ku (by simp)]
        | REMOVE =>
          rw [serialize_pairs_cons_remove seen ku vu rest hku]
          exact serialize_pairs_of_seen rest (ku :: seen) ku (by simp)
      · rw [List.find?_cons_of_neg _ (by simpa using hek)]
        cases au with
        | WRITE =>
          rw [serialize_pairs_cons_write seen ku vu rest hku, pairsFor,
            List.filter_cons_of_neg (by simpa using hek)]
          exact ih (ku :: seen) k (by simp [hk, hek, Ne.symm])
        | REMOVE =>
          rw [serialize_pairs_cons_remove seen ku vu rest hku]
          exact ih (ku :: seen) k (by simp [hk, hek, Ne.symm])

/-- Claim C3: for every key occurring in the stream of transactions folded
into a snapshot, the serialized table contains exactly one (key, value)
pair for that key when its most recent action is a `WRITE` — with the
value of that most recent write — and no pair when its most recent action
is a `REMOVE`. -/
theorem claim_C3_last_write_wins (txs : List KeyValueUpdate) (k : Bytes) :
    (∀ v, lastUpdateFor txs k = some (k, v, KvAction.WRITE) →
      pairsFor k (serializedPairs txs) = [(k, v)])
    ∧ (∀ v, lastUpdateFor txs k = some (k, v, KvAction.REMOVE) →
      pairsFor k (serializedPairs txs) = []) := by
  have hser : pairsFor k (serializedPairs txs) =
      (match txs.reverse.find? (fun u => u.1 = k) with
        | some (_, v, KvAction.WRITE) => [(k, v)]
        | some (_, _, KvAction.REMOVE) => []
        | none => []) := by
    rw [serializedPairs, buildQueue_eq_reverse]
    exact serialize_pairs_not_seen txs.reverse [] k (by simp)
  have hlast : txs.reverse.find? (fun u => u.1 = k) =
      lastUpdateFor txs k := by
    rw [lastUpdateFor, getLast?_filter_eq_find?_reverse]
  rw [hser, hlast]
  constructor
  · intro v hv
    rw [hv]
  · intro v hv
    rw [hv]

/-- Witness for claim C3 at a concrete stream: the latest write of key
`[1]` survives alone; the removed key `[2]` is absent. -/
theorem claim_C3_last_write_wins_witness :
    pairsFor [1] (serializedPairs txsC3) = [([1], [11])]
    ∧ pairsFor [2] (serializedPairs txsC3) = [] :=
  ⟨(claim_C3_last_write_wins txsC3 [1]).1 [11] (by decide),
    (claim_C3_last_write_wins txsC3 [2]).2 [21] (by decide)⟩

theorem decDigitsGo_small (fuel m : Nat) (hm : m < 10) (hf : 1 ≤ fuel) :
    decDigitsGo fuel m = [m] := by
  cases fuel with
  | zero => omega
  | succ f => rw [decDigitsGo, if_pos hm]

theorem asciiDec_two_digits (n : Nat) (h10 : 10 ≤ n) (h100 : n < 100) :
    asciiDec n = [n / 10 + 48, n % 10 + 48] := by
  rw [asciiDec, decDigitsGo, if_neg (by omega : ¬ n < 10),
    decDigitsGo_small n (n / 10) (by omega) (by omega)]
  simp

theorem packStr_head_ge (s : String) :
    ∃ c tail, packStr s = c :: tail ∧ 160 ≤ c := by
  rw [packStr]
  by_cases h1 : (strBytes s).length < 32
  · exact ⟨160 + (strBytes s).length, strBytes s, by simp [h1], by omega⟩
  · by_cases h2 : (strBytes s).length < 256
    · exact ⟨217, (strBytes s).length :: strBytes s, by simp [h1, h2],
        by omega⟩
    · by_cases h3 : (strBytes s).length < 65536
      · exact ⟨218, natBE 2 (strBytes s).length ++ strBytes s,
          by simp [h1, h2, h3, natBE], by omega⟩
      · exact ⟨219, natBE 4 (strBytes s).length ++ strBytes s,
          by simp [h1, h2, h3, natBE], by omega⟩

theorem get?_drop' (l : Bytes) (n m : Nat) :
    (l.drop n).get? m = l.get? (n + m) :=
  List.get?_drop l n m

theorem strBytes_roundtrip (name : String) :
    String.mk ((strBytes name).map Char.ofNat) = name := by
  rw [strBytes, List.map_map]
  have h : (Char.ofNat ∘ Char.toNat) = id := by
    funext c
    exact Char.ofNat_toNat c
  rw [h, List.map_id]

theorem drop_pos_bound (b : Bytes) (pos : Nat) (xs post : Bytes)
    (hdrop : b.drop pos = xs ++ post) (hne : xs ≠ []) :
    pos + xs.length + post.length = b.length := by
  have h1 : (b.drop pos).length = b.length - pos := List.length_drop pos b
  rw [hdrop] at h1
  simp only [List.length_append] at h1
  have h2 : xs.length ≥ 1 := by
    cases xs with
    | nil => exact absurd rfl hne
    | cons a l => simp
  omega

theorem unpackStr_of_drop (b : Bytes) (pos : Nat) (name : String)
    (post : Bytes) (hlen : (strBytes name).length < 256)
    (hdrop : b.drop pos = packStr name ++ post) :
    unpackStr b pos = some (name, pos + (packStr name).length) := by
  have hget : ∀ i, b.get? (pos + i) = (packStr name ++ post).get? i := by
    intro i
    rw [← get?_drop', hdrop]
  have hbound := drop_pos_bound b pos (packStr name) post hdrop
    (by rcases packStr_head_ge name with ⟨c, tail, he, _⟩; simp [he])
  have hdrop2 : ∀ j, b.drop (pos + j) = (packStr name ++ post).drop j := by
    intro j
    rw [← List.drop_drop, hdrop]
  by_cases hfix : (strBytes name).length < 32
  · have hps : packStr name =
        (160 + (strBytes name).length) :: strBytes name := by
      rw [packStr, if_pos hfix]
    have hlen1 : (packStr name).length = 1 + (strBytes name).length := by
      rw [hps]
      simp
      omega
    have h0 : b.get? pos = some (160 + (strBytes name).length) := by
      have h00 := hget 0
      simp only [Nat.add_zero] at h00
      rw [h00, hps]
      rfl
    rw [unpackStr]
    simp only [h0]
    rw [if_pos (by omega : 160 ≤ 160 + (strBytes name).length ∧
      160 + (strBytes name).length ≤ 191)]
    rw [if_pos (by omega :
      pos + 1 + (160 + (strBytes name).length - 160) ≤ b.length)]
    have hsl : (b.drop (pos + 1)).take (160 + (strBytes name).length - 160) =
        strBytes name := by
      rw [hdrop2 1, hps]
      simp only [List.cons_append, List.drop_succ_cons, List.drop_zero]
      have he : 160 + (strBytes name).length - 160 =
          (strBytes name).length := by
        omega
      rw [he, List.take_left]
    rw [hsl, strBytes_roundtrip]
    have he2 : pos + 1 + (160 + (strBytes name).length - 160) =
        pos + (packStr name).length := by
      omega
    rw [he2]
  · have hps : packStr name =
        217 :: (strBytes name).length :: strBytes name := by
      rw [packStr, if_neg hfix, if_pos hlen]
    have hlen1 : (packStr name).length = 2 + (strBytes name).length := by
      rw [hps]
      simp
      omega
    have h0 : b.get? pos = some 217 := by
      have h00 := hget 0
      simp only [Nat.add_zero] at h00
      rw [h00, hps]
      rfl
    have h1 : b.get? (pos + 1) = some (strBytes name).length := by
      rw [hget 1, hps]
      rfl
    rw [unpackStr]
    simp only [h0]
    rw [if_neg (by omega : ¬ (160 ≤ 217 ∧ 217 ≤ 191))]
    simp only [if_true, h1]
    rw [if_pos (by omega : pos + 2 + (strBytes name).length ≤ b.length)]
    have hsl : (b.drop (pos + 2)).take (strBytes name).length =
        strBytes name := by
      rw [hdrop2 2, hps]
      simp only [List.cons_append, List.drop_succ_cons, List.drop_zero]
      rw [List.take_left]
    rw [hsl, strBytes_roundtrip]
    have he2 : pos + 2 + (strBytes name).length =
        pos + (packStr name).length := by
      omega
    rw [he2]

theorem natBE_two (n : Nat) : natBE 2 n = [n / 256 % 256, n % 256] := by
  simp [natBE, List.range_succ]

theorem natBE_four (n : Nat) : natBE 4 n =
    [n / 16777216 % 256, n / 65536 % 256, n / 256 % 256, n % 256] := by
  simp [natBE, List.range_succ]

theorem natBE_eight (n : Nat) : natBE 8 n =
    [n / 72057594037927936 % 256, n / 281474976710656 % 256,
     n / 1099511627776 % 256, n / 4294967296 % 256, n / 16777216 % 256,
     n / 65536 % 256, n / 256 % 256, n % 256] := by
  simp [natBE, List.range_succ]

theorem packUint_length_pos (n : Nat) : 1 ≤ (packUint n).length := by
  rw [packUint]
  split_ifs <;> simp [natBE]

theorem strBytes_short_of_packStr (s : String)
    (h : (packStr s).length < 99) : (strBytes s).length < 256 := by
  by_contra hge
  push_neg at hge
  rw [packStr, if_neg (by omega), if_neg (by omega)] at h
  by_cases h3 : (strBytes s).length < 65536
  · rw [if_pos h3] at h
    simp [natBE] at h
    omega
  · rw [if_neg h3] at h
    simp [natBE] at h
    omega

theorem unpackUint_of_drop (b : Bytes) (pos n : Nat) (post : Bytes)
    (hn : n < 18446744073709551616)
    (hdrop : b.drop pos = packUint n ++ post) :
    unpackUint b pos = some (n, pos + (packUint n).length) := by
  have hget : ∀ i, b.get? (pos + i) = (packUint n ++ post).get? i := by
    intro i
    rw [← get?_drop', hdrop]
  by_cases h1 : n < 128
  · have hp : packUint n = [n] := by
      rw [packUint, if_pos h1]
    have h0 : b.get? pos = some n := by
      have h00 := hget 0
      simp only [Nat.add_zero] at h00
      rw [h00, hp]
      rfl
    rw [unpackUint]
    simp only [h0, if_pos h1, hp]
    simp
  · by_cases h2 : n < 256
    · have hp : packUint n = [204, n] := by
        rw [packUint, if_neg h1, if_pos h2]
      have h0 : b.get? pos = some 204 := by
        have h00 := hget 0
        simp only [Nat.add_zero] at h00
        rw [h00, hp]
        rfl
      have hx : b.get? (pos + 1) = some n := by
        rw [hget 1, hp]
        rfl
      rw [unpackUint]
      simp only [h0, hx, if_true, if_false]
      rw [if_neg (by omega : ¬ (204:Nat) < 128)]
      simp only [hp]
      simp
    · by_cases h3 : n < 65536
      · have hp : packUint n = [205, n / 256 % 256, n % 256] := by
          rw [packUint, if_neg h1, if_neg h2, if_pos h3, natBE_two]
        have h0 : b.get? pos = some 205 := by
          have h00 := hget 0
          simp only [Nat.add_zero] at h00
          rw [h00, hp]
          rfl
        have hx : b.get? (pos + 1) = some (n / 256 % 256) := by
          rw [hget 1, hp]
          rfl
        have hy : b.get? (pos + 2) = some (n % 256) := by
          rw [hget 2, hp]
          rfl
        rw [unpackUint]
        simp only [h0, hx, hy, if_true, if_false]
        rw [if_neg (by omega : ¬ (205:Nat) < 128),
          if_neg (by omega : ¬ (205:Nat) = 204)]
        simp only [hp]
        have hv : n / 256 % 256 * 256 + n % 256 = n := by
          omega
        simp [hv]
      · by_cases h4 : n < 4294967296
        · have hp : packUint n = [206, n / 16777216 % 256, n / 65536 % 256,
              n / 256 % 256, n % 256] := by
            rw [packUint, if_neg h1, if_neg h2, if_neg h3, if_pos h4,
              natBE_four]
          have h0 : b.get? pos = some 206 := by
            have h00 := hget 0
            simp only [Nat.add_zero] at h00
            rw [h00, hp]
            rfl
          have hx1 : b.get? (pos + 1) = some (n / 16777216 % 256) := by
            rw [hget 1, hp]
            rfl
          have hx2 : b.get? (pos + 2) = some (n / 65536 % 256) := by
            rw [hget 2, hp]
            rfl
          have hx3 : b.get? (pos + 3) = some (n / 256 % 256) := by
            rw [hget 3, hp]
            rfl
          have hx4 : b.get? (pos + 4) = some (n % 256) := by
            rw [hget 4, hp]
            rfl
          rw [unpackUint]
          simp only [h0, hx1, hx2, hx3, hx4, if_true, if_false]
          rw [if_neg (by omega : ¬ (206:Nat) < 128),
            if_neg (by omega : ¬ (206:Nat) = 204),
            if_neg (by omega : ¬ (206:Nat) = 205)]
          simp only [hp]
          have hv : ((n / 16777216 % 256 * 256 + n / 65536 % 256) * 256 +
              n / 256 % 256) * 256 + n % 256 = n := by
            omega
          simp [hv]
        · have hp : packUint n = [207, n / 72057594037927936 % 256,
              n / 281474976710656 % 256, n / 1099511627776 % 256,
              n / 4294967296 % 256, n / 16777216 % 256, n / 65536 % 256,
              n / 256 % 256, n % 256] := by
            rw [packUint, if_neg h1, if_neg h2, if_neg h3, if_neg h4,
              natBE_eight]
          have h0 : b.get? pos = some 207 := by
            have h00 := hget 0
            simp only [Nat.add_zero] at h00
            rw [h00, hp]
            rfl
          have hx1 : b.get? (pos + 1) =
              some (n / 72057594037927936 % 256) := by
            rw [hget 1, hp]
            rfl
          have hx2 : b.get? (pos + 2) =
              some (n / 281474976710656 % 256) := by
            rw [hget 2, hp]
            rfl
          have hx3 : b.get? (pos + 3) = some (n / 1099511627776 % 256) := by
            rw [hget 3, hp]
            rfl
          have hx4 : b.get? (pos + 4) = some (n / 4294967296 % 256) := by
            rw [hget 4, hp]
            rfl
          have hx5 : b.get? (pos + 5) = some (n / 16777216 % 256) := by
            rw [hget 5, hp]
            rfl
          have hx6 : b.get? (pos + 6) = some (n / 65536 % 256) := by
            rw [hget 6, hp]
            rfl
          have hx7 : b.get? (pos + 7) = some (n / 256 % 256) := by
            rw [hget 7, hp]
            rfl
          have hx8 : b.get? (pos + 8) = some (n % 256) := by
            rw [hget 8, hp]
            rfl
          rw [unpackUint]
          simp only [h0, hx1, hx2, hx3, hx4, hx5, hx6, hx7, hx8, if_true,
            if_false]
          rw [if_neg (by omega : ¬ (207:Nat) < 128),
            if_neg (by omega : ¬ (207:Nat) = 204),
            if_neg (by omega : ¬ (207:Nat) = 205),
            if_neg (by omega : ¬ (207:Nat) = 206)]
          simp only [hp]
          have hv : ((((((n / 72057594037927936 % 256 * 256 +
              n / 281474976710656 % 256) * 256 +
              n / 1099511627776 % 256) * 256 +
              n / 4294967296 % 256) * 256 + n / 16777216 % 256) * 256 +
              n / 65536 % 256) * 256 + n / 256 % 256) * 256 + n % 256 =
              n := by
            omega
          simp [hv]

theorem parseSizeText_block (file : Bytes) (pos hs : Nat)
    (h10 : 10 ≤ hs) (h100 : hs < 100) (c : Nat) (hc : 160 ≤ c)
    (tl2 : Bytes)
    (hdrop : file.drop pos = (hs / 10 + 48) :: (hs % 10 + 48) :: c :: tl2) :
    parseSizeText file pos = some (hs, pos + 2) := by
  have hw1 : isWsByte (hs / 10 + 48) = false := decide_eq_false (by omega)
  have hd1 : isDigitByte (hs / 10 + 48) = true := decide_eq_true (by omega)
  have hd2 : isDigitByte (hs % 10 + 48) = true := decide_eq_true (by omega)
  have hdc : isDigitByte c = false := decide_eq_false (by omega)
  rw [parseSizeText]
  simp only [hdrop, List.takeWhile_cons, hw1, hd1, hd2, hdc,
    Bool.false_eq_true, if_false, if_true, List.length_nil, Nat.add_zero,
    List.isEmpty_cons, List.length_cons, List.foldl_cons, List.foldl_nil]
  have hv : (0 * 10 + (hs / 10 + 48 - 48)) * 10 + (hs % 10 + 48 - 48) =
      hs := by
    omega
  simp [hv]
  omega

theorem read_blocks_step (pre : Bytes) (name : String)
    (kvs : List (Bytes × Bytes)) (rest : Bytes) (f : Nat)
    (names : List String) (bufs : List (String × Bytes)) (dig : Bytes)
    (hgood : blockGood (name, kvs)) :
    read_blocks (pre ++ (tpcc_serialize_table_block name kvs ++ rest))
      (f + 1) pre.length pre.length names bufs dig =
    read_blocks (pre ++ (tpcc_serialize_table_block name kvs ++ rest)) f
      (pre.length + (tpcc_serialize_table_block name kvs).length)
      (pre.length + (tpcc_serialize_table_block name kvs).length)
      (names ++ [name])
      (bufs ++ [(name, (kvs.map (fun p => p.1 ++ p.2)).flatten)])
      (dig ++ (packStr name ++
        packUint ((kvs.map (fun p => p.1 ++ p.2)).flatten).length) ++
        (kvs.map (fun p => p.1 ++ p.2)).flatten) := by
  simp only [blockGood] at hgood
  obtain ⟨hb2, hb3, hb4⟩ := hgood
  set dta := (kvs.map (fun p => p.1 ++ p.2)).flatten with hdta
  set hdr := packStr name ++ packUint dta.length with hhdr
  have hb1 : (strBytes name).length < 256 := by
    apply strBytes_short_of_packStr
    have h1 := packUint_length_pos dta.length
    have h2 : hdr.length = (packStr name).length +
        (packUint dta.length).length := by
      rw [hhdr, List.length_append]
    omega
  set file := pre ++ (tpcc_serialize_table_block name kvs ++ rest)
    with hfile
  obtain ⟨c, ptail, hps, hc⟩ := packStr_head_ge name
  have hblock : tpcc_serialize_table_block name kvs =
      (hdr.length / 10 + 48) :: (hdr.length % 10 + 48) :: (hdr ++ dta) := by
    simp only [tpcc_serialize_table_block, ← hdta, ← hhdr]
    rw [asciiDec_two_digits hdr.length hb3 hb4]
    simp [List.cons_append, List.append_assoc]
  have hblen : (tpcc_serialize_table_block name kvs).length =
      2 + hdr.length + dta.length := by
    simp only [hblock, List.length_cons, List.length_append]
    omega
  have hf0 : file.drop pre.length =
      tpcc_serialize_table_block name kvs ++ rest := by
    rw [hfile, List.drop_left]
  have hflen : file.length =
      pre.length + (tpcc_serialize_table_block name kvs).length +
      rest.length := by
    rw [hfile]
    simp only [List.length_append]
    omega
  have hcond : pre.length < file.length := by
    rw [hfile]
    simp only [List.length_append, hblen]
    omega
  have hdropfile : file.drop pre.length =
      (hdr.length / 10 + 48) :: (hdr.length % 10 + 48) :: c ::
      ((ptail ++ packUint dta.length) ++ (dta ++ rest)) := by
    rw [hf0, hblock, hhdr, hps]
    simp [List.cons_append, List.append_assoc]
  have hparse : parseSizeText file pre.length =
      some (hdr.length, pre.length + 2) :=
    parseSizeText_block file pre.length hdr.length hb3 hb4 c hc _ hdropfile
  have hdrop2 : file.drop (pre.length + 2) = hdr ++ (dta ++ rest) := by
    rw [← List.drop_drop, hf0, hblock]
    simp [List.cons_append, List.append_assoc]
  have hread1 : readBytes file (pre.length + 2) hdr.length =
      some (hdr, pre.length + 2 + hdr.length) := by
    rw [readBytes]
    have hb : pre.length + 2 + hdr.length ≤ file.length := by
      have h1 := drop_pos_bound file (pre.length + 2) hdr (dta ++ rest)
        hdrop2 (by rw [hhdr, hps]; simp)
      omega
    rw [if_pos hb, hdrop2, List.take_left]
  have hstr : unpackStr hdr 0 = some (name, (packStr name).length) := by
    have h := unpackStr_of_drop hdr 0 name (packUint dta.length) hb1
      (by rw [List.drop_zero, hhdr])
    simpa using h
  have huint : unpackUint hdr (packStr name).length =
      some (dta.length, (packStr name).length +
        (packUint dta.length).length) :=
    unpackUint_of_drop hdr (packStr name).length dta.length [] hb2
      (by rw [hhdr, List.drop_left]; simp)
  have hdrop3 : file.drop (pre.length + 2 + hdr.length) = dta ++ rest := by
    rw [← List.drop_drop, hdrop2, List.drop_left]
  have hread2 : readBytes file (pre.length + 2 + hdr.length) dta.length =
      some (dta, pre.length + 2 + hdr.length + dta.length) := by
    rw [readBytes]
    have hb : pre.length + 2 + hdr.length + dta.length ≤ file.length := by
      rw [hflen, hblen]
      omega
    rw [if_pos hb, hdrop3, List.take_left]
  rw [read_blocks]
  rw [if_pos hcond]
  simp only [hparse, hread1, hstr, huint, hread2]
  have e1 : pre.length + 2 + hdr.length + dta.length =
      pre.length + (tpcc_serialize_table_block name kvs).length := by
    rw [hblen]
    omega
  have e2 : pre.length + (dta.length + hdr.length + 2) =
      pre.length + (tpcc_serialize_table_block name kvs).length := by
    rw [hblen]
    omega
  rw [e1, e2]

theorem read_blocks_tpcc (rem : List (String × List (Bytes × Bytes))) :
    ∀ (pre : Bytes) (fuel : Nat) (names : List String)
      (bufs : List (String × Bytes)) (dig : Bytes),
    (∀ t ∈ rem, blockGood t) → rem.length < fuel →
    read_blocks (pre ++ tpcc_file rem) fuel pre.length pre.length
      names bufs dig =
    Except.ok (names ++ rem.map (fun t => t.1),
      bufs ++ rem.map (fun t =>
        (t.1, (t.2.map (fun p => p.1 ++ p.2)).flatten)),
      dig ++ tpcc_digest_input rem) := by
  induction rem with
  | nil =>
    intro pre fuel names bufs dig _ hfuel
    obtain ⟨f, rfl⟩ : ∃ f, fuel = f + 1 := ⟨fuel - 1, by omega⟩
    rw [read_blocks]
    rw [if_neg (by simp [tpcc_file] : ¬ pre.length <
      (pre ++ tpcc_file ([] : List (String × List (Bytes × Bytes)))).length)]
    simp [tpcc_digest_input]
  | cons t ts ih =>
    intro pre fuel names bufs dig hgood hfuel
    obtain ⟨f, rfl⟩ : ∃ f, fuel = f + 1 := ⟨fuel - 1, by omega⟩
    obtain ⟨name, kvs⟩ := t
    have htf : tpcc_file ((name, kvs) :: ts) =
        tpcc_serialize_table_block name kvs ++ tpcc_file ts := by
      simp [tpcc_file]
    rw [htf,
      read_blocks_step pre name kvs (tpcc_file ts) f names bufs dig
        (hgood _ (by simp))]
    have hassoc : pre ++ (tpcc_serialize_table_block name kvs ++
        tpcc_file ts) =
        (pre ++ tpcc_serialize_table_block name kvs) ++ tpcc_file ts :=
      (List.append_assoc pre _ _).symm
    have hlen : pre.length + (tpcc_serialize_table_block name kvs).length =
        (pre ++ tpcc_serialize_table_block name kvs).length := by
      simp
    rw [hassoc, hlen,
      ih (pre ++ tpcc_serialize_table_block name kvs) f _ _ _
        (fun u hu => hgood u (by simp [hu])) (by simp at hfuel; omega)]
    simp [tpcc_digest_input, tpcc_serialize_table_digest_input,
      List.cons_append, List.append_assoc]

theorem serializer_rejected (ts : List (String × List KeyValueUpdate))
    (hne : ts ≠ []) :
    read_blocks (serializer_file ts) ((serializer_file ts).length + 1)
      0 0 [] [] [] = Except.error "Snapshot read failed" := by
  obtain ⟨t, ts', rfl⟩ : ∃ a l, ts = a :: l := by
    cases ts with
    | nil => exact absurd rfl hne
    | cons a l => exact ⟨a, l, rfl⟩
  obtain ⟨c, ptail, hps, hc⟩ := packStr_head_ge t.1
  have hfile : serializer_file (t :: ts') =
      c :: (ptail ++ packUint (serialize_table_data t.2).length ++
        (serialize_table_data t.2 ++ serializer_file ts')) := by
    simp [serializer_file, serialize_table_block, serialize_table_header,
      hps, List.cons_append, List.append_assoc]
  have hw : isWsByte c = false := decide_eq_false (by omega)
  have hd : isDigitByte c = false := decide_eq_false (by omega)
  have hparse : parseSizeText (serializer_file (t :: ts')) 0 = none := by
    rw [parseSizeText]
    simp only [hfile, List.drop_zero, List.takeWhile_cons, hw, hd,
      Bool.false_eq_true, if_false, List.length_nil, Nat.add_zero]
    simp
  rw [read_blocks]
  rw [if_pos (by simp [hfile])]
  simp only [hparse]

/-- Claim C4 (amended): the kv `SnapshotSerializer` writes no header-size
field at all — each block is `packed(name) ++ packed(data_size) ++ data`,
and the digest input coincides with the written bytes; consequently
`SnapshotReader::read` — which expects an ASCII-decimal header size —
rejects every nonempty `SnapshotSerializer` file.  The tpcc-app writer
instead emits the header size as ASCII decimal text, and for tables whose
header is 10-99 bytes long (so the size field occupies exactly the two
bytes the reader budgets in its offset accounting) — the data size being
anything in the `size_t` range — the reader parses the file back into
exactly the blocks written — same table names in order, same data
buffers — and its recomputed digest input is the writer's digest stream,
the concatenation of (header bytes || data bytes) per block in written
order. -/
theorem claim_C4_amended (tables : List (String × List (Bytes × Bytes)))
    (fuel : Nat) (hgood : ∀ t ∈ tables, blockGood t)
    (hfuel : tables.length < fuel) :
    read_blocks (tpcc_file tables) fuel 0 0 [] [] [] =
      Except.ok (tables.map (fun t => t.1),
        tables.map (fun t =>
          (t.1, (t.2.map (fun p => p.1 ++ p.2)).flatten)),
        tpcc_digest_input tables)
    ∧ (∀ name q, serialize_table_digest_input name q =
        serialize_table_block name q)
    ∧ (∀ ts : List (String × List KeyValueUpdate), ts ≠ [] →
        read_blocks (serializer_file ts)
          ((serializer_file ts).length + 1) 0 0 [] [] [] =
          Except.error "Snapshot read failed") := by
  refine ⟨?_, fun name q => rfl, fun ts hne => serializer_rejected ts hne⟩
  have h := read_blocks_tpcc tables [] fuel [] [] [] hgood hfuel
  simpa using h

/-- Witness for claim C4 (amended) at a concrete one-table file. -/
theorem claim_C4_amended_witness :
    read_blocks (tpcc_file tblC4) 2 0 0 [] [] [] =
      Except.ok (tblC4.map (fun t => t.1),
        tblC4.map (fun t =>
          (t.1, (t.2.map (fun p => p.1 ++ p.2)).flatten)),
        tpcc_digest_input tblC4) :=
  (claim_C4_amended tblC4 2 (by decide) (by decide)).1

/-- Claim C4 (counterexample): the block `SnapshotSerializer` writes for a
`histories` table with one pair does not begin with a `u64 LE`
`header_size` field — its first bytes are the msgpack fixstr header of the
name (first byte `0xA9 = 169`), not the little-endian bytes of the header
size 11 — and the snapshot reader fails on the resulting file instead of
parsing the block back. -/
theorem claim_C4_counterexample :
    serialize_table_block "histories" qC4 =
      [169, 104, 105, 115, 116, 111, 114, 105, 101, 115, 2, 1, 2]
    ∧ (serialize_table_header "histories"
        (serialize_table_data qC4).length).length = 11
    ∧ (serialize_table_block "histories" qC4).take 8 ≠ u64LE 11
    ∧ read_blocks (serializer_file [("histories", qC4)])
        ((serializer_file [("histories", qC4)]).length + 1) 0 0 [] [] [] =
      Except.error "Snapshot read failed" :=
  ⟨by decide, by decide, by decide, by rfl⟩
